import Mathlib

/-!
# Verification of `ietools` (Decision criteria engine and engineering-economy engine)

Shallow embedding of the repository's Python sources:
* `src/ietools/Decision.py` — `Decision.fit` and its five criteria;
* `src/ietools/EnggEcon.py` — `equivalence`, `compareAlt.npv`/`irr`, `BCRatio.__init__`;
* `src/ietools/utils.py` — `cfCommon`.

Numeric values are modelled by exact rationals (`ℚ`), standing for the
real-number meaning of the Python float expressions.  Sequences are `List`s,
Python dicts are association lists in insertion order, and Python exceptions
are explicit error constructors.
-/

set_option autoImplicit false
set_option maxRecDepth 8000
set_option maxHeartbeats 1000000

deriving instance DecidableEq for Except

namespace IETools

/-! ## Numpy-style list reductions

`amax`/`amin` model `ndarray.max()`/`.min()` on a nonempty 1-d array;
`argmaxQ`/`argminQ` model `.argmax()`/`.argmin()`, which return the index of
the *first* occurrence of the extremum.  On the empty list numpy raises;
the embeddings return junk (`0`) there and theorems carry nonemptiness
hypotheses where it matters. -/

def amax : List ℚ → ℚ
  | [] => 0
  | x :: xs => xs.foldl max x

def amin : List ℚ → ℚ
  | [] => 0
  | x :: xs => xs.foldl min x

/-- First index attaining the running maximum (strict `>` keeps the first). -/
def argmaxGo : List ℚ → ℕ → ℕ → ℚ → ℕ
  | [], _, best, _ => best
  | x :: xs, i, best, bestv =>
      if bestv < x then argmaxGo xs (i + 1) i x
      else argmaxGo xs (i + 1) best bestv

def argmaxQ : List ℚ → ℕ
  | [] => 0
  | x :: xs => argmaxGo xs 1 0 x

/-- First index attaining the running minimum (strict `<` keeps the first). -/
def argminGo : List ℚ → ℕ → ℕ → ℚ → ℕ
  | [], _, best, _ => best
  | x :: xs, i, best, bestv =>
      if x < bestv then argminGo xs (i + 1) i x
      else argminGo xs (i + 1) best bestv

def argminQ : List ℚ → ℕ
  | [] => 0
  | x :: xs => argminGo xs 1 0 x

/-! ## `Decision.fit` (src/ietools/Decision.py)

The canonical payoff data after `_read_payoff`: alternative labels `alts`,
payoff matrix `payoff` (row per alternative), probability vector `prob`.
State labels play no role in `fit` and are omitted. -/

structure DecData (α : Type) where
  alts : List α
  payoff : List (List ℚ)
  prob : List ℚ
  deriving Repr, DecidableEq

/-- `self.payoff.max(axis = 1)`: per-row maxima. -/
def rowMaxes (p : List (List ℚ)) : List ℚ := p.map amax

/-- `self.payoff.min(axis = 1)`: per-row minima. -/
def rowMins (p : List (List ℚ)) : List ℚ := p.map amin

/-- `self.payoff.max(axis = 0)`: per-column maxima (rectangular input). -/
def colMaxes : List (List ℚ) → List ℚ
  | [] => []
  | [r] => r
  | r :: rest => List.zipWith max r (colMaxes rest)

/-- `self.payoff.max(axis = 0) - self.payoff`: the regret matrix. -/
def regretM (p : List (List ℚ)) : List (List ℚ) :=
  p.map (fun row => List.zipWith (fun m x => m - x) (colMaxes p) row)

/-- Column `j` of the payoff matrix: `self.payoff[:, j]`. -/
def colAt (p : List (List ℚ)) (j : ℕ) : List ℚ := p.map (fun row => row.getD j 0)

/-- `self.payoff @ self.prob`: per-row dot products with the probability vector. -/
def dotprods (p : List (List ℚ)) (prob : List ℚ) : List ℚ :=
  p.map (fun row => (List.zipWith (· * ·) row prob).sum)

/-- `self.maxmax_pf_ = self.payoff.max(axis = 1).max()`. -/
def maxmaxPf (p : List (List ℚ)) : ℚ := amax (rowMaxes p)

/-- `self.maxmin_pf_ = self.payoff.min(axis = 1).max()`. -/
def maxminPf (p : List (List ℚ)) : ℚ := amax (rowMins p)

/-- The exceptions `fit` can raise: the explicit `ValueError` for an unknown
criterion name, and the `AttributeError` from reading `self.mle_pf_` in the
`'ev'` branch when the `'maxlik'` branch never assigned it. -/
inductive FitError where
  | valueError (criterion : String)
  | attributeError
  deriving Repr, DecidableEq

/-- The mutable state `fit` threads: `self.results_` (a dict, modelled as an
association list in insertion order) and the optional attribute
`self.mle_pf_` (`none` = never assigned). -/
structure FitState (α : Type) where
  results : List (String × α × ℚ)
  mle_pf : Option ℚ
  deriving Repr, DecidableEq

/-- Python `key in dict` membership test for the association-list model. -/
def hasKeyB {α : Type} : List (String × α × ℚ) → String → Bool
  | [], _ => false
  | p :: ps, k => if p.1 = k then true else hasKeyB ps k

/-- Python `dict.update({k: v})`: replace in place if the key exists (keeping
its position), otherwise append. -/
def updateD {α : Type} (rs : List (String × α × ℚ)) (k : String) (v : α × ℚ) :
    List (String × α × ℚ) :=
  if hasKeyB rs k then rs.map (fun p => if p.1 = k then (k, v) else p)
  else rs ++ [(k, v)]

/-- Dict lookup `results_[k]`: first entry with the key. -/
def lookupD {α : Type} : List (String × α × ℚ) → String → Option (α × ℚ)
  | [], _ => none
  | p :: ps, k => if p.1 = k then some p.2 else lookupD ps k

/-- One arm of the `for criterion in self.crit` dispatch in `Decision.fit`. -/
def fitStep {α : Type} [Inhabited α] (D : DecData α) (c : String) (s : FitState α) :
    Except FitError (FitState α) :=
  if c = "maxmax" then
    let dec := D.alts.getD (argmaxQ (rowMaxes D.payoff)) default
    .ok { s with results := updateD s.results c (dec, maxmaxPf D.payoff) }
  else if c = "maxmin" then
    let dec := D.alts.getD (argmaxQ (rowMins D.payoff)) default
    .ok { s with results := updateD s.results c (dec, maxminPf D.payoff) }
  else if c = "regret" then
    let reg := regretM D.payoff
    let dec := D.alts.getD (argminQ (rowMaxes reg)) default
    .ok { s with results := updateD s.results c (dec, amin (rowMaxes reg)) }
  else if c = "maxlik" then
    let col := colAt D.payoff (argmaxQ D.prob)
    let dec := D.alts.getD (argmaxQ col) default
    .ok { results := updateD s.results c (dec, amax col), mle_pf := some (amax col) }
  else if c = "ev" then
    let dp := dotprods D.payoff D.prob
    let dec := D.alts.getD (argmaxQ dp) default
    -- source line 212: `self._build_dict(criterion, self.ev_dec_, self.mle_pf_)`
    -- (the computed `self.ev_pf_ = dotprod.max()` is never stored)
    match s.mle_pf with
    | none => .error .attributeError
    | some m => .ok { s with results := updateD s.results c (dec, m) }
  else .error (.valueError c)

/-- The `for` loop of `fit`.  On an exception the partially mutated state is
what the caller's object retains, so it is returned alongside the error. -/
def fitGo {α : Type} [Inhabited α] (D : DecData α) :
    List String → FitState α → FitState α × Option FitError
  | [], s => (s, none)
  | c :: cs, s =>
      match fitStep D c s with
      | .ok s' => fitGo D cs s'
      | .error e => (s, some e)

/-- `Decision(payoff, criteria).fit()` starting from the constructor state
(`self.results_ = {}`, no `mle_pf_` attribute). -/
def fitRun {α : Type} [Inhabited α] (D : DecData α) (criteria : List String) :
    FitState α × Option FitError :=
  fitGo D criteria ⟨[], none⟩

/-- The default `criteria` argument of `Decision.__init__`. -/
def defaultCriteria : List String := ["maxmax", "maxmin", "regret", "maxlik", "ev"]

/-- The 5×3 fixture of `src/tests/dec_test.py`, with the alternative labels
`"$5"`–`"$9"` named by the spec's concrete scenario. -/
def fixture : DecData String :=
  { alts := ["$5", "$6", "$7", "$8", "$9"]
  , payoff := [[125, 175, 225], [200, 300, 400], [225, 375, 525], [200, 400, 600], [125, 375, 625]]
  , prob := [35/100, 25/100, 40/100] }

/-! ## `equivalence` / `compareAlt` (src/ietools/EnggEcon.py)

Embedded for the end-of-year convention (`convention='end'`, the default);
`fract` is the scale constant set in `equivalence.__init__` (`1` for
fractional rates, `100` for whole-percent rates).  `compareAlt.npv` only ever
calls `PgivenF` at natural period indices, so `n : ℕ`. -/

/-- `equivalence.PgivenF` (end convention): `(1.0+i/self.fract)**-n`.
(Python raises `ZeroDivisionError` when the base is `0` and `n > 0`; the
`ℚ` zpow returns `0` there — no theorem below touches that point.) -/
def PgivenF (fract i : ℚ) (n : ℕ) : ℚ := (1 + i / fract) ^ (-(n : ℤ))

/-- `compareAlt._ppv`: `[flow*self.eq.PgivenF(interest,period) for period,flow in enumerate(cf)]`. -/
def ppv (fract : ℚ) (cf : List ℚ) (interest : ℚ) : List ℚ :=
  cf.enum.map (fun pf => pf.2 * PgivenF fract interest pf.1)

/-- `compareAlt.npv`: `pv += flow*self.eq.PgivenF(interest,period)` over the series.
(`compareAlt._spv` of `_ppv` is the same sum.) -/
def npvQ (fract : ℚ) (cf : List ℚ) (interest : ℚ) : ℚ := (ppv fract cf interest).sum

/-- `compareAlt._dnpv`: `-1/(interest+1)*sum([period*x for x,period in enumerate(ppv)])`
(the comprehension names are swapped in the source; the products are identical). -/
def dnpvQ (pp : List ℚ) (interest : ℚ) : ℚ :=
  -1 / (interest + 1) * (pp.enum.map (fun kx => (kx.1 : ℚ) * kx.2)).sum

/-- One Newton–Raphson update of `irr`: `r -= npv/dnpv` with
`npv = sum(_ppv(cf,r))` and `dnpv = _dnpv(ppv, r/fract)`. -/
def newtonStep (fract : ℚ) (cf : List ℚ) (r : ℚ) : ℚ :=
  r - npvQ fract cf r / dnpvQ (ppv fract cf r) (r / fract)

/-- Outcomes of `compareAlt.irr`:
* `ok r` — the numeric `return r`;
* `typeError` — the non-convergence branch evaluates
  `"Failed to converge.Last irr = " + r` with `r` a float, which raises
  `TypeError` in Python (str + float is not defined);
* `zeroDivisionError` — a division by zero (`npv/dnpv` with `dnpv == 0`, or
  the default guess `abs(cf[0])/sum(cf[1:])` with a zero denominator);
* `outOfFuel` — artefact of the fuel-based embedding of the `while` loop; the
  loop body runs at most `max_iter + 1` times (the counter check), so fuel
  `max_iter + 2` never reaches it. -/
inductive IrrResult where
  | ok (r : ℚ)
  | typeError
  | zeroDivisionError
  | outOfFuel
  deriving Repr, DecidableEq

/-- The `while abs(npv) > threshold` loop of `compareAlt.irr`.  Arguments `r`,
`npv`, `itr` are the loop's mutable variables: `npv` is the present worth of
the rate the loop last evaluated (initially of the starting rate), and is
one update behind `r` after each body. -/
def irrGo (fract threshold : ℚ) (cf : List ℚ) (maxIter : ℕ) :
    ℕ → ℚ → ℚ → ℕ → IrrResult
  | 0, _, _, _ => .outOfFuel
  | fuel + 1, r, npv, itr =>
      if threshold < |npv| then
        if maxIter < itr + 1 then .typeError
        else if dnpvQ (ppv fract cf r) (r / fract) = 0 then .zeroDivisionError
        else
          irrGo fract threshold cf maxIter fuel
            (r - (ppv fract cf r).sum / dnpvQ (ppv fract cf r) (r / fract))
            (ppv fract cf r).sum (itr + 1)
      else .ok r

/-- `compareAlt.irr(guess, max_iter, threshold)` on cash flow `cf` with scale
constant `fract`.  The default guess is `abs(cf[0])/sum(cf[1:]) * fract`. -/
def irr (cf : List ℚ) (guess : Option ℚ) (maxIter : ℕ) (threshold fract : ℚ) : IrrResult :=
  match guess with
  | none =>
      if (cf.drop 1).sum = 0 then .zeroDivisionError
      else
        let r := |cf.headD 0| / (cf.drop 1).sum * fract
        irrGo fract threshold cf maxIter (maxIter + 2) r (npvQ fract cf r) 0
  | some g => irrGo fract threshold cf maxIter (maxIter + 2) g (npvQ fract cf g) 0

/-! ## `BCRatio.__init__` (src/ietools/EnggEcon.py)

Rate arguments are `Option ℚ` (`none` = Python `None`); Python truthiness of
a float-or-None is `some x` with `x ≠ 0`. -/

def truthy : Option ℚ → Bool
  | none => false
  | some x => x ≠ 0

/-- Result of running `BCRatio.__init__` rate resolution: `.error warned`
models the `ValueError` (with whether the warning had already been emitted),
`.ok (warned, ben_rate, cost_rate)` the constructed per-stream rates. -/
def bcInit (rate ben_rate cost_rate : Option ℚ) :
    Except Bool (Bool × Option ℚ × Option ℚ) :=
  let resolved :=
    if (truthy rate && truthy ben_rate) || (truthy rate && truthy cost_rate) then
      (true, rate, rate)
    else if truthy rate then (false, rate, rate)
    else (false, ben_rate, cost_rate)
  -- source line 372 re-tests the *original* arguments, after the override:
  if (truthy ben_rate && !truthy cost_rate) || (truthy cost_rate && !truthy ben_rate) then
    .error resolved.1
  else .ok resolved

/-! ## `cfCommon` (src/ietools/utils.py) — value-level model -/

/-- The inner `_lcm`: `lcm = lcm * num // gcd(lcm,num)` folded from `1`.
(`n * m / gcd n m` is definitionally `Nat.lcm n m`.) -/
def lcmFold (arr : List ℕ) : ℕ :=
  arr.foldl (fun l num => l * num / Nat.gcd l num) 1

/-- The inner `_horizon`: `len(v)-1` per series, in dict order. -/
def horizons (cfs : List (String × List ℚ)) : List ℕ :=
  cfs.map (fun kv => kv.2.length - 1)

/-- Python `v[-1] = x` (junk-total: the source raises `IndexError` on `[]`). -/
def setLast (v : List ℚ) (x : ℚ) : List ℚ := v.dropLast ++ [x]

/-- Python `l * k` for a list: `k` concatenated copies. -/
def repeatL (v : List ℚ) (k : ℕ) : List ℚ := (List.replicate k v).flatten

/-- The body of the `for i,k in enumerate(cash_flows)` loop for one series
`v` with pre-computed horizon `h = n[i]` and common horizon `l = lcm`:
```
cash_flows[k][-1] = cash_flows[k][0] + cash_flows[k][-1]
cash_flows[k] = cash_flows[k] + (cash_flows[k][1:] * int(lcm/n[i]-1))
cash_flows[k][-1] = cash_flows[k][-1]-cash_flows[k][0]
``` -/
def cfAdjust (l h : ℕ) (v : List ℚ) : List ℚ :=
  let v1 := setLast v (v.headD 0 + v.getLastD 0)
  let v2 := v1 ++ repeatL (v1.drop 1) (l / h - 1)
  setLast v2 (v2.getLastD 0 - v2.headD 0)

/-- `cfCommon` as a map on the dict's value contents (key order preserved;
`n[i]` is positionally the `i`-th entry's own `len-1`). -/
def cfCommon (cfs : List (String × List ℚ)) : List (String × List ℚ) :=
  let l := lcmFold (horizons cfs)
  cfs.map (fun kv => (kv.1, cfAdjust l (kv.2.length - 1) kv.2))

/-! ## `cfCommon` — object-level (heap) model

To talk about aliasing and in-place mutation, lists and dicts live in a
store addressed by position; `List.set` models in-place assignment and
appending models allocation of a fresh object.  A dict value maps each key
to the address of its series list. -/

structure Store where
  lists : List (List ℚ)
  dicts : List (List (String × ℕ))
  deriving Repr, DecidableEq

def readList (s : Store) (a : ℕ) : List ℚ := s.lists.getD a []

def writeList (s : Store) (a : ℕ) (v : List ℚ) : Store :=
  { s with lists := s.lists.set a v }

/-- Allocate a fresh list object; its address is the current store size. -/
def allocList (s : Store) (v : List ℚ) : Store :=
  { s with lists := s.lists ++ [v] }

/-- The store effect of one body of the `for i,k in enumerate(cash_flows)`
loop on the series at address `a` with pre-computed horizon `h = n[i]` and
common horizon `l = lcm`:
```
cash_flows[k][-1] = cash_flows[k][0] + cash_flows[k][-1]
cash_flows[k] = cash_flows[k] + (cash_flows[k][1:] * int(lcm/n[i]-1))
cash_flows[k][-1] = cash_flows[k][-1]-cash_flows[k][0]
```
Line 83 mutates the *original* list object in place; line 84 allocates a
*new* list by concatenation (address = current heap size, which the first
write left unchanged); line 85 mutates that new list. -/
def cfStep (l h a : ℕ) (s : Store) : Store :=
  let v := readList s a
  let v1 := setLast v (v.headD 0 + v.getLastD 0)
  let s1 := writeList s a v1
  let v2 := v1 ++ repeatL (v1.drop 1) (l / h - 1)
  let s2 := allocList s1 v2
  writeList s2 s1.lists.length (setLast v2 (v2.getLastD 0 - v2.headD 0))

/-- The `for i,k in enumerate(cash_flows)` loop over the dict entries paired
with their pre-computed horizons, rebinding each key to the address of the
freshly allocated list (the heap size at allocation time) and returning the
rebuilt dict entries with the final store. -/
def cfLoop (l : ℕ) : List ((String × ℕ) × ℕ) → Store → List (String × ℕ) × Store
  | [], s => ([], s)
  | ((k, a), h) :: rest, s =>
      let res := cfLoop l rest (cfStep l h a s)
      ((k, s.lists.length) :: res.1, res.2)

/-- `cfCommon(cash_flows)` on the dict object at address `d`: computes the
horizons and their LCM from the store, runs the loop, writes the mutated
entry table back into the same dict object, and returns that same address
(`return cash_flows`). -/
def cfCommonH (d : ℕ) (s : Store) : ℕ × Store :=
  let dict := s.dicts.getD d []
  let n := dict.map (fun kv => (readList s kv.2).length - 1)
  let l := lcmFold n
  let res := cfLoop l (dict.zip n) s
  (d, { res.2 with dicts := res.2.dicts.set d res.1 })

/-- Example heap: the docstring example of `cfCommon`, one dict at address 0
holding the two series at list addresses 0 and 1. -/
def exStore : Store :=
  { lists := [[-1000, 300, 400, 500], [-2000, 300, 400, 500, 600]]
  , dicts := [[("cf1", 0), ("cf2", 1)]] }

/-- The docstring example of `cfCommon`: raw lengths 4 and 5. -/
def cfEx : List (String × List ℚ) :=
  [("cf1", [-1000, 300, 400, 500]), ("cf2", [-2000, 300, 400, 500, 600])]

/-! ## Predicates used by the amended claims about `fit` -/

/-- The five criterion names `fit` dispatches on; any other name reaches the
final `else: raise ValueError`. -/
def isKnown (c : String) : Bool :=
  decide (c = "maxmax") || decide (c = "maxmin") || decide (c = "regret") ||
    decide (c = "maxlik") || decide (c = "ev")

/-- Scans a criteria list tracking whether `'maxlik'` has been seen
(`seen`): `true` iff no `'ev'` occurs before the first `'maxlik'`, i.e. iff
processing the list never reads the unassigned `mle_pf_` attribute. -/
def evOk : List String → Bool → Bool
  | [], _ => true
  | c :: cs, seen =>
      if decide (c = "ev") && !seen then false
      else evOk cs (seen || decide (c = "maxlik"))

/-! ## Helper lemmas: list extrema -/

lemma le_foldl_max : ∀ (l : List ℚ) (a : ℚ), a ≤ l.foldl max a
  | [], a => le_refl a
  | x :: xs, a => le_trans (le_max_left a x) (le_foldl_max xs (max a x))

lemma foldl_min_le : ∀ (l : List ℚ) (a : ℚ), l.foldl min a ≤ a
  | [], a => le_refl a
  | x :: xs, a => le_trans (foldl_min_le xs (min a x)) (min_le_left a x)

lemma foldl_max_le_foldl_max {l₁ l₂ : List ℚ} (h : List.Forall₂ (· ≤ ·) l₁ l₂) :
    ∀ {a b : ℚ}, a ≤ b → l₁.foldl max a ≤ l₂.foldl max b := by
  induction h with
  | nil => exact fun hab => hab
  | cons hxy _ ih => exact fun hab => ih (max_le_max hab hxy)

lemma amin_le_amax : ∀ l : List ℚ, amin l ≤ amax l
  | [] => le_refl 0
  | x :: xs => le_trans (foldl_min_le xs x) (le_foldl_max xs x)

lemma amax_le_amax {l₁ l₂ : List ℚ} (h : List.Forall₂ (· ≤ ·) l₁ l₂) : amax l₁ ≤ amax l₂ := by
  cases h with
  | nil => exact le_refl 0
  | cons hxy ht => exact foldl_max_le_foldl_max ht hxy

lemma forall₂_rowMins_rowMaxes (p : List (List ℚ)) :
    List.Forall₂ (· ≤ ·) (rowMins p) (rowMaxes p) := by
  induction p with
  | nil => exact List.Forall₂.nil
  | cons r t ih => exact List.Forall₂.cons (amin_le_amax r) ih

/-! ## Helper lemmas: folded lcm -/

lemma lcmFold_eq_foldl_lcm (arr : List ℕ) : lcmFold arr = arr.foldl Nat.lcm 1 := rfl

lemma dvd_foldl_lcm : ∀ (l : List ℕ) (a : ℕ), a ∣ l.foldl Nat.lcm a
  | [], a => dvd_refl a
  | x :: xs, a => (Nat.dvd_lcm_left a x).trans (dvd_foldl_lcm xs (Nat.lcm a x))

lemma mem_dvd_foldl_lcm : ∀ (l : List ℕ) (x : ℕ), x ∈ l → ∀ (a : ℕ), x ∣ l.foldl Nat.lcm a := by
  intro l
  induction l with
  | nil => intro x hx; cases hx
  | cons y ys ih =>
    intro x hx a
    rcases List.mem_cons.mp hx with h | h
    · subst h; exact (Nat.dvd_lcm_right a x).trans (dvd_foldl_lcm ys (Nat.lcm a x))
    · exact ih x h (Nat.lcm a y)

lemma foldl_lcm_pos : ∀ (l : List ℕ), (∀ x ∈ l, 0 < x) → ∀ (a : ℕ), 0 < a → 0 < l.foldl Nat.lcm a := by
  intro l
  induction l with
  | nil => exact fun _ a ha => ha
  | cons y ys ih =>
    intro h a ha
    exact ih (fun x hx => h x (List.mem_cons_of_mem y hx)) _
      (Nat.lcm_pos ha (h y (List.mem_cons_self y ys)))

lemma length_setLast (v : List ℚ) (x : ℚ) : (setLast v x).length = v.length - 1 + 1 := by
  simp [setLast]

lemma length_repeatL (v : List ℚ) (k : ℕ) : (repeatL v k).length = k * v.length := by
  induction k with
  | zero => simp [repeatL]
  | succ n ih =>
    simp only [repeatL] at ih
    simp only [repeatL, List.replicate_succ, List.flatten_cons, List.length_append, ih,
      Nat.succ_mul]
    omega

lemma length_cfAdjust (l h : ℕ) (v : List ℚ) (hv : 2 ≤ v.length) (hh : h = v.length - 1)
    (hdvd : h ∣ l) (hl : 0 < l) : (cfAdjust l h v).length = l + 1 := by
  obtain ⟨c, hc⟩ := hdvd
  have hhpos : 0 < h := by omega
  have hq : l / h = c := by rw [hc, Nat.mul_div_cancel_left c hhpos]
  have hch : (c - 1) * h = l - h := by
    rw [Nat.sub_mul, one_mul, Nat.mul_comm, ← hc]
  have hhl : h ≤ l := Nat.le_of_dvd hl ⟨c, hc⟩
  have l1 : (setLast v (v.headD 0 + v.getLastD 0)).length = h + 1 := by
    rw [length_setLast]; omega
  have l2 : ((setLast v (v.headD 0 + v.getLastD 0)).drop 1).length = h := by
    rw [List.length_drop, l1]; omega
  have l3 : (repeatL ((setLast v (v.headD 0 + v.getLastD 0)).drop 1) (l / h - 1)).length
      = (c - 1) * h := by
    rw [length_repeatL, l2, hq]
  simp only [cfAdjust]
  rw [length_setLast, List.length_append, l1, l3, hch]
  omega

/-! ## Helper lemmas: dict update and `fit` dispatch -/

lemma lookupD_map_replace_ne {α : Type} (k k' : String) (hne : k' ≠ k) (v : α × ℚ) :
    ∀ rs : List (String × α × ℚ),
      lookupD (rs.map (fun p => if p.1 = k then (k, v) else p)) k' = lookupD rs k' := by
  intro rs
  induction rs with
  | nil => rfl
  | cons a t ih =>
    rw [List.map_cons]
    by_cases hak : a.1 = k
    · rw [if_pos hak]
      simp only [lookupD]
      rw [if_neg (Ne.symm hne), if_neg (show ¬a.1 = k' from by rw [hak]; exact Ne.symm hne)]
      exact ih
    · rw [if_neg hak]
      simp only [lookupD]
      by_cases hak' : a.1 = k'
      · rw [if_pos hak', if_pos hak']
      · rw [if_neg hak', if_neg hak']
        exact ih

lemma lookupD_map_replace_self {α : Type} (k : String) (v : α × ℚ) :
    ∀ rs : List (String × α × ℚ), hasKeyB rs k = true →
      lookupD (rs.map (fun p => if p.1 = k then (k, v) else p)) k = some v := by
  intro rs
  induction rs with
  | nil => intro h; exact absurd h (by simp [hasKeyB])
  | cons a t ih =>
    intro h
    rw [List.map_cons]
    by_cases hak : a.1 = k
    · rw [if_pos hak]
      simp only [lookupD]
      simp
    · rw [if_neg hak]
      simp only [lookupD]
      rw [if_neg hak]
      exact ih (by simpa [hasKeyB, hak] using h)

lemma lookupD_append_single_ne {α : Type} (k k' : String) (hne : k' ≠ k) (v : α × ℚ) :
    ∀ rs : List (String × α × ℚ), lookupD (rs ++ [(k, v)]) k' = lookupD rs k' := by
  intro rs
  induction rs with
  | nil =>
    rw [List.nil_append]
    simp only [lookupD]
    rw [if_neg (Ne.symm hne)]
  | cons a t ih =>
    rw [List.cons_append]
    simp only [lookupD]
    by_cases hak' : a.1 = k'
    · rw [if_pos hak', if_pos hak']
    · rw [if_neg hak', if_neg hak']
      exact ih

lemma lookupD_append_single_self {α : Type} (k : String) (v : α × ℚ) :
    ∀ rs : List (String × α × ℚ), hasKeyB rs k = false →
      lookupD (rs ++ [(k, v)]) k = some v := by
  intro rs
  induction rs with
  | nil =>
    intro _
    rw [List.nil_append]
    simp only [lookupD]
    simp
  | cons a t ih =>
    intro h
    have hak : ¬a.1 = k := by
      intro hak
      rw [show hasKeyB (a :: t) k = true from by simp [hasKeyB, hak]] at h
      cases h
    rw [List.cons_append]
    simp only [lookupD]
    rw [if_neg hak]
    exact ih (by simpa [hasKeyB, hak] using h)

lemma lookupD_updateD_self {α : Type} (rs : List (String × α × ℚ)) (k : String) (v : α × ℚ) :
    lookupD (updateD rs k v) k = some v := by
  unfold updateD
  split
  · rename_i h
    exact lookupD_map_replace_self k v rs h
  · rename_i h
    refine lookupD_append_single_self k v rs ?_
    cases hval : hasKeyB rs k
    · rfl
    · exact absurd hval h

lemma lookupD_updateD_ne {α : Type} (rs : List (String × α × ℚ)) (k k' : String)
    (hne : k' ≠ k) (v : α × ℚ) : lookupD (updateD rs k v) k' = lookupD rs k' := by
  unfold updateD
  split
  · exact lookupD_map_replace_ne k k' hne v rs
  · exact lookupD_append_single_ne k k' hne v rs

lemma lookupD_updateD_isSome {α : Type} (rs : List (String × α × ℚ)) (k k' : String)
    (v : α × ℚ) (h : (lookupD rs k').isSome = true) :
    (lookupD (updateD rs k v) k').isSome = true := by
  by_cases hk : k' = k
  · subst hk; rw [lookupD_updateD_self]; rfl
  · rw [lookupD_updateD_ne rs k k' hk v]; exact h

lemma isKnown_cases (c : String) (h : isKnown c = true) :
    c = "maxmax" ∨ c = "maxmin" ∨ c = "regret" ∨ c = "maxlik" ∨ c = "ev" := by
  simp only [isKnown, Bool.or_eq_true, decide_eq_true_eq] at h
  tauto

/-- A known criterion whose `'ev'` precondition is met runs without error:
its entry is stored, earlier entries survive, and `mle_pf_` becomes assigned
exactly when it was already assigned or the criterion is `'maxlik'`. -/
lemma fitStep_known {α : Type} [Inhabited α] (D : DecData α) (c : String) (s : FitState α)
    (hc : isKnown c = true) (hev : c = "ev" → s.mle_pf.isSome = true) :
    ∃ s', fitStep D c s = .ok s' ∧
      s'.mle_pf.isSome = (s.mle_pf.isSome || decide (c = "maxlik")) ∧
      (lookupD s'.results c).isSome = true ∧
      ∀ k, (lookupD s.results k).isSome = true → (lookupD s'.results k).isSome = true := by
  rcases isKnown_cases c hc with rfl | rfl | rfl | rfl | rfl
  · refine ⟨{ s with results := updateD s.results "maxmax" (D.alts.getD (argmaxQ (rowMaxes D.payoff)) default, maxmaxPf D.payoff) },
      by simp [fitStep], by simp, by rw [lookupD_updateD_self]; rfl,
      fun k hk => lookupD_updateD_isSome _ _ _ _ hk⟩
  · refine ⟨{ s with results := updateD s.results "maxmin" (D.alts.getD (argmaxQ (rowMins D.payoff)) default, maxminPf D.payoff) },
      by simp [fitStep], by simp, by rw [lookupD_updateD_self]; rfl,
      fun k hk => lookupD_updateD_isSome _ _ _ _ hk⟩
  · refine ⟨{ s with results := updateD s.results "regret" (D.alts.getD (argminQ (rowMaxes (regretM D.payoff))) default, amin (rowMaxes (regretM D.payoff))) },
      by simp [fitStep], by simp, by rw [lookupD_updateD_self]; rfl,
      fun k hk => lookupD_updateD_isSome _ _ _ _ hk⟩
  · refine ⟨{ results := updateD s.results "maxlik" (D.alts.getD (argmaxQ (colAt D.payoff (argmaxQ D.prob))) default, amax (colAt D.payoff (argmaxQ D.prob))), mle_pf := some (amax (colAt D.payoff (argmaxQ D.prob))) },
      by simp [fitStep], by simp, by rw [lookupD_updateD_self]; rfl,
      fun k hk => lookupD_updateD_isSome _ _ _ _ hk⟩
  · obtain ⟨m, hm⟩ := Option.isSome_iff_exists.mp (hev rfl)
    refine ⟨{ s with results := updateD s.results "ev" (D.alts.getD (argmaxQ (dotprods D.payoff D.prob)) default, m) },
      by simp [fitStep, hm], by simp [hm], by rw [lookupD_updateD_self]; rfl,
      fun k hk => lookupD_updateD_isSome _ _ _ _ hk⟩

lemma fitStep_unknown {α : Type} [Inhabited α] (D : DecData α) (c : String) (s : FitState α)
    (hc : isKnown c = false) : fitStep D c s = .error (.valueError c) := by
  simp only [isKnown, Bool.or_eq_false_iff, decide_eq_false_iff_not] at hc
  obtain ⟨⟨⟨⟨h1, h2⟩, h3⟩, h4⟩, h5⟩ := hc
  simp [fitStep, h1, h2, h3, h4, h5]

/-- Processing a list of known criteria whose `'ev'` uses are covered by an
earlier `'maxlik'` succeeds, stores an entry per criterion, preserves
existing entries, and continues seamlessly into any appended suffix. -/
lemma fitGo_known_run {α : Type} [Inhabited α] (D : DecData α) :
    ∀ (pre : List String) (s : FitState α),
      (∀ c ∈ pre, isKnown c = true) → evOk pre s.mle_pf.isSome = true →
      ∃ s', fitGo D pre s = (s', none) ∧
        (∀ c ∈ pre, (lookupD s'.results c).isSome = true) ∧
        (∀ k, (lookupD s.results k).isSome = true → (lookupD s'.results k).isSome = true) ∧
        (∀ rest, fitGo D (pre ++ rest) s = fitGo D rest s') := by
  intro pre
  induction pre with
  | nil =>
    intro s _ _
    exact ⟨s, rfl, by simp, fun _ h => h, fun _ => rfl⟩
  | cons c cs ih =>
    intro s hknown hev
    have hc : isKnown c = true := hknown c (List.mem_cons_self c cs)
    have hevc : c = "ev" → s.mle_pf.isSome = true := by
      intro hceq
      by_contra hns
      have hfalse : s.mle_pf.isSome = false := by
        revert hns; cases s.mle_pf.isSome <;> simp
      rw [evOk, hceq, hfalse] at hev
      simp at hev
    obtain ⟨s₁, hstep, hmle, hself, hpres⟩ := fitStep_known D c s hc hevc
    have hev₁ : evOk cs s₁.mle_pf.isSome = true := by
      rw [hmle]
      rw [evOk] at hev
      split at hev
      · exact absurd hev (by simp)
      · exact hev
    obtain ⟨s', h1, h2, h3, h4⟩ :=
      ih s₁ (fun c' hc' => hknown c' (List.mem_cons_of_mem c hc')) hev₁
    refine ⟨s', ?_, ?_, ?_, ?_⟩
    · show fitGo D (c :: cs) s = (s', none)
      simp only [fitGo, hstep]
      exact h1
    · intro c' hc'
      rcases List.mem_cons.mp hc' with rfl | hmem
      · exact h3 c' hself
      · exact h2 c' hmem
    · intro k hk
      exact h3 k (hpres k hk)
    · intro rest
      show fitGo D (c :: (cs ++ rest)) s = fitGo D rest s'
      simp only [fitGo, hstep]
      exact h4 rest

/-- Processing known criteria none of which is `'maxlik'` leaves `mle_pf_`
unassigned and never stores an `'ev'` entry; reaching `'ev'` then raises
`AttributeError`. -/
lemma fitGo_ev_no_maxlik {α : Type} [Inhabited α] (D : DecData α) (rest : List String) :
    ∀ (pre : List String) (s : FitState α),
      (∀ c ∈ pre, isKnown c = true) → "maxlik" ∉ pre → s.mle_pf = none →
      lookupD s.results "ev" = none →
      (fitGo D (pre ++ "ev" :: rest) s).2 = some .attributeError ∧
      lookupD (fitGo D (pre ++ "ev" :: rest) s).1.results "ev" = none := by
  intro pre
  induction pre with
  | nil =>
    intro s _ _ hmle hevlk
    have hstep : fitStep D "ev" s = .error .attributeError := by simp [fitStep, hmle]
    simp only [List.nil_append, fitGo, hstep]
    exact ⟨trivial, hevlk⟩
  | cons c cs ih =>
    intro s hknown hml hmle hevlk
    have hc : isKnown c = true := hknown c (List.mem_cons_self c cs)
    have hcml : ¬c = "maxlik" := fun h => hml (h ▸ List.mem_cons_self c cs)
    rcases isKnown_cases c hc with rfl | rfl | rfl | rfl | rfl
    · have hstep : fitStep D "maxmax" s = .ok { s with results := updateD s.results "maxmax" (D.alts.getD (argmaxQ (rowMaxes D.payoff)) default, maxmaxPf D.payoff) } := by
        simp [fitStep]
      simp only [List.cons_append, fitGo, hstep]
      exact ih _ (fun c' hc' => hknown c' (List.mem_cons_of_mem _ hc'))
        (fun h => hml (List.mem_cons_of_mem _ h)) hmle
        (by rw [lookupD_updateD_ne _ _ _ (by decide) _]; exact hevlk)
    · have hstep : fitStep D "maxmin" s = .ok { s with results := updateD s.results "maxmin" (D.alts.getD (argmaxQ (rowMins D.payoff)) default, maxminPf D.payoff) } := by
        simp [fitStep]
      simp only [List.cons_append, fitGo, hstep]
      exact ih _ (fun c' hc' => hknown c' (List.mem_cons_of_mem _ hc'))
        (fun h => hml (List.mem_cons_of_mem _ h)) hmle
        (by rw [lookupD_updateD_ne _ _ _ (by decide) _]; exact hevlk)
    · have hstep : fitStep D "regret" s = .ok { s with results := updateD s.results "regret" (D.alts.getD (argminQ (rowMaxes (regretM D.payoff))) default, amin (rowMaxes (regretM D.payoff))) } := by
        simp [fitStep]
      simp only [List.cons_append, fitGo, hstep]
      exact ih _ (fun c' hc' => hknown c' (List.mem_cons_of_mem _ hc'))
        (fun h => hml (List.mem_cons_of_mem _ h)) hmle
        (by rw [lookupD_updateD_ne _ _ _ (by decide) _]; exact hevlk)
    · exact absurd rfl hcml
    · have hstep : fitStep D "ev" s = .error .attributeError := by simp [fitStep, hmle]
      simp only [List.cons_append, fitGo, hstep]
      exact ⟨trivial, hevlk⟩

/-! ## Helper lemmas: the heap model of `cfCommon` -/

lemma forall₂_imp_of_mem {α β : Type} {R S : α → β → Prop} {l1 : List α} {l2 : List β}
    (h : List.Forall₂ R l1 l2) (himp : ∀ a ∈ l1, ∀ b, R a b → S a b) :
    List.Forall₂ S l1 l2 := by
  induction h with
  | nil => exact .nil
  | cons hr _ ih =>
    exact .cons (himp _ (List.mem_cons_self _ _) _ hr)
      (ih (fun a ha b hr' => himp a (List.mem_cons_of_mem _ ha) b hr'))

lemma zip_map_self {α β : Type} (g : α → β) (l : List α) :
    l.zip (l.map g) = l.map (fun x => (x, g x)) := by
  have h := List.zip_map' (@id α) g l
  simpa using h

lemma length_lists_writeList (s : Store) (a : ℕ) (v : List ℚ) :
    (writeList s a v).lists.length = s.lists.length := by
  simp [writeList]

lemma readList_writeList_self (s : Store) (a : ℕ) (v : List ℚ) (h : a < s.lists.length) :
    readList (writeList s a v) a = v := by
  simp [readList, writeList, List.getD_eq_getElem?_getD, List.getElem?_set, h]

lemma readList_writeList_ne (s : Store) (a b : ℕ) (v : List ℚ) (h : a ≠ b) :
    readList (writeList s a v) b = readList s b := by
  simp [readList, writeList, List.getD_eq_getElem?_getD, List.getElem?_set, h]

lemma readList_allocList_lt (s : Store) (b : ℕ) (v : List ℚ) (h : b < s.lists.length) :
    readList (allocList s v) b = readList s b := by
  simp [readList, allocList, List.getD_eq_getElem?_getD, List.getElem?_append_left h]

lemma readList_allocList_self (s : Store) (v : List ℚ) :
    readList (allocList s v) s.lists.length = v := by
  simp [readList, allocList, List.getD_eq_getElem?_getD,
    List.getElem?_append_right (le_refl s.lists.length)]

lemma cfStep_dicts (l h a : ℕ) (s : Store) : (cfStep l h a s).dicts = s.dicts := rfl

lemma cfStep_length (l h a : ℕ) (s : Store) :
    (cfStep l h a s).lists.length = s.lists.length + 1 := by
  simp [cfStep, writeList, allocList]

lemma readList_cfStep_ne (l h a : ℕ) (s : Store) (b : ℕ) (hb : b < s.lists.length)
    (hne : b ≠ a) : readList (cfStep l h a s) b = readList s b := by
  unfold cfStep
  rw [readList_writeList_ne _ _ _ _ (by simp [writeList]; omega),
    readList_allocList_lt _ _ _ (by simp [writeList]; omega),
    readList_writeList_ne _ _ _ _ (Ne.symm hne)]

lemma readList_cfStep_self (l h a : ℕ) (s : Store) (ha : a < s.lists.length) :
    readList (cfStep l h a s) a =
      setLast (readList s a) ((readList s a).headD 0 + (readList s a).getLastD 0) := by
  unfold cfStep
  rw [readList_writeList_ne _ _ _ _ (by simp [writeList]; omega),
    readList_allocList_lt _ _ _ (by simp [writeList]; omega),
    readList_writeList_self _ _ _ ha]

lemma readList_cfStep_fresh (l h a : ℕ) (s : Store) (_ha : a < s.lists.length) :
    readList (cfStep l h a s) s.lists.length = cfAdjust l h (readList s a) := by
  simp only [cfStep]
  rw [length_lists_writeList]
  rw [readList_writeList_self _ _ _
    (by simp only [allocList, writeList, List.length_append, List.length_set,
        List.length_singleton]
        omega)]
  rfl

lemma getD_set_self {X : Type} (l : List X) (i : ℕ) (x dflt : X) (h : i < l.length) :
    (l.set i x).getD i dflt = x := by
  rw [List.getD_eq_getElem?_getD, List.getElem?_set]
  simp [h]

/-- Invariant of the `cfCommon` loop on the heap: dict objects are untouched,
one fresh list is allocated per entry, every original series has exactly its
last element overwritten in place, untouched addresses are framed, and the
rebuilt entries bind the original keys to the fresh lists holding the
adjusted (value-level) series. -/
lemma cfLoop_spec (l : ℕ) :
    ∀ (ts : List ((String × ℕ) × ℕ)) (s : Store),
      (∀ t ∈ ts, t.1.2 < s.lists.length) →
      (ts.map (fun t => t.1.2)).Pairwise (· ≠ ·) →
      (cfLoop l ts s).2.dicts = s.dicts ∧
      (cfLoop l ts s).2.lists.length = s.lists.length + ts.length ∧
      (∀ b, b < s.lists.length → b ∉ ts.map (fun t => t.1.2) →
        readList (cfLoop l ts s).2 b = readList s b) ∧
      (∀ t ∈ ts, readList (cfLoop l ts s).2 t.1.2 =
        setLast (readList s t.1.2)
          ((readList s t.1.2).headD 0 + (readList s t.1.2).getLastD 0)) ∧
      List.Forall₂ (fun (t : (String × ℕ) × ℕ) (e : String × ℕ) =>
          e.1 = t.1.1 ∧ s.lists.length ≤ e.2 ∧
          readList (cfLoop l ts s).2 e.2 = cfAdjust l t.2 (readList s t.1.2))
        ts (cfLoop l ts s).1 := by
  intro ts
  induction ts with
  | nil =>
    intro s _ _
    exact ⟨rfl, rfl, fun _ _ _ => rfl, fun t ht => absurd ht (List.not_mem_nil t), .nil⟩
  | cons t0 rest ih =>
    obtain ⟨⟨k, a⟩, h⟩ := t0
    intro s hin hpw
    have ha : a < s.lists.length := hin _ (List.mem_cons_self _ _)
    rw [List.map_cons] at hpw
    have hpw' := List.pairwise_cons.mp hpw
    have hrest_in : ∀ t ∈ rest, t.1.2 < (cfStep l h a s).lists.length := by
      intro t ht
      rw [cfStep_length]
      exact Nat.lt_succ_of_lt (hin t (List.mem_cons_of_mem _ ht))
    obtain ⟨ihd, ihlen, ihframe, ihorig, ihf2⟩ := ih (cfStep l h a s) hrest_in hpw'.2
    simp only [cfLoop]
    refine ⟨?_, ?_, ?_, ?_, ?_⟩
    · rw [ihd, cfStep_dicts]
    · rw [ihlen]
      have hc1 := cfStep_length l h a s
      have hc2 : ((((k, a), h) :: rest) : List ((String × ℕ) × ℕ)).length = rest.length + 1 := rfl
      omega
    · intro b hb hnb
      rw [List.map_cons, List.mem_cons, not_or] at hnb
      rw [ihframe b (by rw [cfStep_length]; omega) hnb.2,
        readList_cfStep_ne l h a s b hb hnb.1]
    · intro t ht
      rcases List.mem_cons.mp ht with rfl | hmem
      · have hnotin : a ∉ rest.map (fun t => t.1.2) := by
          intro hmem'
          exact (hpw'.1 _ hmem') rfl
        rw [ihframe a (by rw [cfStep_length]; omega) hnotin, readList_cfStep_self l h a s ha]
      · have hta : t.1.2 ≠ a :=
          Ne.symm (hpw'.1 t.1.2 (List.mem_map_of_mem _ hmem))
        rw [ihorig t hmem,
          readList_cfStep_ne l h a s t.1.2 (hin t (List.mem_cons_of_mem _ hmem)) hta]
    · refine List.Forall₂.cons ⟨rfl, le_refl _, ?_⟩ ?_
      · have hnotin : s.lists.length ∉ rest.map (fun t => t.1.2) := by
          intro hmem'
          obtain ⟨t, ht, he⟩ := List.mem_map.mp hmem'
          have := hin t (List.mem_cons_of_mem _ ht)
          omega
        rw [ihframe _ (by rw [cfStep_length]; omega) hnotin,
          readList_cfStep_fresh l h a s ha]
      · refine forall₂_imp_of_mem ihf2 ?_
        intro t ht e he
        obtain ⟨he1, he2, he3⟩ := he
        refine ⟨he1, ?_, ?_⟩
        · rw [cfStep_length] at he2; omega
        · rw [he3, readList_cfStep_ne l h a s t.1.2 (hin t (List.mem_cons_of_mem _ ht))
            (Ne.symm (hpw'.1 t.1.2 (List.mem_map_of_mem _ ht)))]

/-! ## Claim theorems: the decision engine -/

/-- C1 (code bug): on the test fixture, the `'ev'` entry of `results_` pairs
the expected-value-maximizing alternative `"$8"` with the *maximum-likelihood*
payoff `625`, while the maximal expected value (`dotprod.max()`, the value the
spec says is stored) is `410`.  Source line 212 passes `self.mle_pf_` instead
of the computed `self.ev_pf_` to `_build_dict`. -/
theorem ev_result_stores_maxlik_payoff :
    lookupD (fitRun fixture defaultCriteria).1.results "ev" = some ("$8", 625) ∧
    amax (dotprods fixture.payoff fixture.prob) = 410 ∧ (625 : ℚ) ≠ 410 := by
  refine ⟨by with_unfolding_all decide, by with_unfolding_all decide, by with_unfolding_all decide⟩

/-- C3 (confirmed): on the 5×3 fixture with probabilities `[0.35, 0.25, 0.4]`,
`fit` with all five default criteria terminates without error and produces
exactly `maxmax ↦ ("$9",625)`, `maxmin ↦ ("$7",225)`, `regret ↦ ("$8",25)`,
`maxlik ↦ ("$9",625)`, `ev ↦ ("$8",625)`. -/
theorem fit_fixture_results :
    fitRun fixture defaultCriteria =
      ({ results := [("maxmax", ("$9", 625)), ("maxmin", ("$7", 225)), ("regret", ("$8", 25)),
                     ("maxlik", ("$9", 625)), ("ev", ("$8", 625))]
       , mle_pf := some 625 }, none) := by
  with_unfolding_all decide

/-- C7 (confirmed): for every nonempty payoff matrix with nonempty rows, the
payoff stored by the `maxmin` criterion (`payoff.min(axis=1).max()`) is at
most the payoff stored by the `maxmax` criterion (`payoff.max(axis=1).max()`). -/
theorem maxmin_payoff_le_maxmax_payoff (p : List (List ℚ)) (_hp : p ≠ [])
    (_hrows : ∀ r ∈ p, r ≠ []) : maxminPf p ≤ maxmaxPf p :=
  amax_le_amax (forall₂_rowMins_rowMaxes p)

/-- Witness for C7 at the test fixture: `225 ≤ 625`. -/
theorem maxmin_payoff_le_maxmax_payoff_witness :
    fixture.payoff ≠ [] ∧ maxminPf fixture.payoff ≤ maxmaxPf fixture.payoff :=
  ⟨by decide, maxmin_payoff_le_maxmax_payoff fixture.payoff (by decide) (by decide)⟩

/-- Counterexample to C6 as stated: the list `["ev", "bogus"]` contains the
unknown name `"bogus"`, yet `fit` does not fail with the unknown-criterion
`ValueError` — it fails earlier, at `'ev'`, with the `AttributeError` from
the unassigned `mle_pf_`. -/
theorem fit_ev_before_unknown_hits_attribute_error :
    (fitRun fixture ["ev", "bogus"]).2 = some .attributeError ∧
    some FitError.attributeError ≠ some (FitError.valueError "bogus") := by
  refine ⟨by with_unfolding_all decide, by decide⟩

/-- C6 (amended): for a criteria list `pre ++ bad :: rest` in which every
name of `pre` is one of the five supported ones, `bad` is not, and no `'ev'`
in `pre` precedes its `'maxlik'`, `fit` raises the unknown-criterion
`ValueError` exactly when it reaches `bad`, with the state it had after
processing `pre`; the entries stored for the criteria of `pre` are still
present in `results_` (no rollback). -/
theorem fit_unknown_value_error_keeps_earlier {α : Type} [Inhabited α]
    (D : DecData α) (pre rest : List String) (bad : String)
    (hpre : ∀ c ∈ pre, isKnown c = true) (hbad : isKnown bad = false)
    (hev : evOk pre false = true) :
    fitRun D (pre ++ bad :: rest) = ((fitRun D pre).1, some (.valueError bad)) ∧
    ∀ c ∈ pre, (lookupD (fitRun D (pre ++ bad :: rest)).1.results c).isSome = true := by
  obtain ⟨s', h1, h2, h3, h4⟩ := fitGo_known_run D pre ⟨[], none⟩ hpre hev
  have hbadrun : fitRun D (pre ++ bad :: rest) = (s', some (.valueError bad)) := by
    show fitGo D (pre ++ bad :: rest) ⟨[], none⟩ = _
    rw [h4 (bad :: rest)]
    simp only [fitGo, fitStep_unknown D bad s' hbad]
  constructor
  · rw [hbadrun]
    show _ = ((fitGo D pre ⟨[], none⟩).1, _)
    rw [h1]
  · intro c hc
    rw [hbadrun]
    exact h2 c hc

/-- Witness for C6 (amended) at the fixture with `pre = ["maxmax","maxlik"]`,
`bad = "bogus"`, `rest = ["ev"]`. -/
theorem fit_unknown_value_error_keeps_earlier_witness :
    (isKnown "bogus" = false ∧ evOk ["maxmax", "maxlik"] false = true) ∧
    (fitRun fixture (["maxmax", "maxlik"] ++ "bogus" :: ["ev"]) =
      ((fitRun fixture ["maxmax", "maxlik"]).1, some (.valueError "bogus")) ∧
     ∀ c ∈ ["maxmax", "maxlik"],
       (lookupD (fitRun fixture (["maxmax", "maxlik"] ++ "bogus" :: ["ev"])).1.results c).isSome
         = true) :=
  ⟨⟨by decide, by decide⟩,
   fit_unknown_value_error_keeps_earlier fixture ["maxmax", "maxlik"] ["ev"] "bogus"
     (by decide) (by decide) (by decide)⟩

/-- Counterexample to C9 as stated: the list `["bogus", "ev"]` contains
`'ev'` with no `'maxlik'` before it, yet `fit` fails with the
unknown-criterion `ValueError` at `"bogus"`, not with an attribute-access
error. -/
theorem fit_unknown_before_ev_is_value_error :
    (fitRun fixture ["bogus", "ev"]).2 = some (.valueError "bogus") ∧
    some (FitError.valueError "bogus") ≠ some FitError.attributeError := by
  refine ⟨by decide, by decide⟩

/-- C9 (amended): for a criteria list `pre ++ "ev" :: rest` in which every
name of `pre` is supported and `'maxlik'` does not occur in `pre`, `fit`
fails with the `AttributeError` raised by reading the unassigned `mle_pf_`
attribute in the `'ev'` branch, and no `'ev'` entry is ever stored in
`results_`. -/
theorem fit_ev_without_prior_maxlik_attribute_error {α : Type} [Inhabited α]
    (D : DecData α) (pre rest : List String)
    (hpre : ∀ c ∈ pre, isKnown c = true) (hml : "maxlik" ∉ pre) :
    (fitRun D (pre ++ "ev" :: rest)).2 = some .attributeError ∧
    lookupD (fitRun D (pre ++ "ev" :: rest)).1.results "ev" = none :=
  fitGo_ev_no_maxlik D rest pre ⟨[], none⟩ hpre hml rfl rfl

/-- Witness for C9 (amended) at the fixture with `pre = ["maxmax"]`,
`rest = []`. -/
theorem fit_ev_without_prior_maxlik_attribute_error_witness :
    ((∀ c ∈ ["maxmax"], isKnown c = true) ∧ "maxlik" ∉ ["maxmax"]) ∧
    ((fitRun fixture (["maxmax"] ++ "ev" :: [])).2 = some .attributeError ∧
     lookupD (fitRun fixture (["maxmax"] ++ "ev" :: [])).1.results "ev" = none) :=
  ⟨⟨by decide, by decide⟩,
   fit_ev_without_prior_maxlik_attribute_error fixture ["maxmax"] [] (by decide) (by decide)⟩

/-! ## Claim theorems: IRR -/

/-- C2 (code bug): when the iteration cap is exceeded (`max_iter = 0` forces
it immediately), `irr` does not return a value at all: the non-convergence
branch evaluates `"Failed to converge.Last irr = " + r` with `r` a float,
which raises `TypeError` — a crash, not a diagnostic return. -/
theorem irr_cap_crashes_with_type_error :
    irr [-1000, 200, 300, 400, 500] none 0 (1/100000) 1 = .typeError := by
  with_unfolding_all decide

/-- Unfolding equation for one pass of the `irr` loop. -/
lemma irrGo_succ (fract T : ℚ) (cf : List ℚ) (maxIter fuel : ℕ) (r npv : ℚ) (itr : ℕ) :
    irrGo fract T cf maxIter (fuel + 1) r npv itr =
      if T < |npv| then
        if maxIter < itr + 1 then .typeError
        else if dnpvQ (ppv fract cf r) (r / fract) = 0 then .zeroDivisionError
        else irrGo fract T cf maxIter fuel
          (r - (ppv fract cf r).sum / dnpvQ (ppv fract cf r) (r / fract))
          (ppv fract cf r).sum (itr + 1)
      else .ok r := rfl

/-- Counterexample to C5 as stated: with cash flow `[1, -3, 2]`, guess
`2.65` and threshold `1/5`, `irr` converges (the loop test passes at the
second-to-last rate `19663/55600`, whose present worth is
`-706629231/5664519169 ≈ -0.125`) but the *returned* rate — one further
Newton update — has `|present worth| ≈ 0.58 > 1/5`. -/
theorem irr_roundtrip_fails_at_returned_rate :
    irr [1, -3, 2] (some (53/20)) 1000 (1/5) 1 = .ok (56888103441953/10476619040000) ∧
    ¬|npvQ 1 [1, -3, 2] (56888103441953/10476619040000)| ≤ 1/5 := by
  have hpp0 : ppv 1 [1, -3, 2] (53/20) = [1, -60/73, 800/5329] := by
    simp [ppv, PgivenF, List.enum, List.enumFrom]; norm_num
  have hd0 : dnpvQ [1, -60/73, 800/5329] ((53/20) / 1) = 55600/389017 := by
    simp [dnpvQ, List.enum, List.enumFrom]; norm_num
  have hpp1 : ppv 1 [1, -3, 2] (19663/55600) = [1, -166800/75263, 6182720000/5664519169] := by
    simp [ppv, PgivenF, List.enum, List.enumFrom]; norm_num
  have hd1 : dnpvQ [1, -166800/75263, 6182720000/5664519169] ((19663/55600) / 1)
      = 10476619040000/426328706216447 := by
    simp [dnpvQ, List.enum, List.enumFrom]; norm_num
  constructor
  · show irrGo 1 (1/5) [1, -3, 2] 1000 1002 (53/20) (npvQ 1 [1, -3, 2] (53/20)) 0 = _
    have hnpv0 : npvQ 1 [1, -3, 2] (53/20) = 1749/5329 := by
      rw [npvQ, hpp0]; norm_num
    rw [hnpv0, show (1002 : ℕ) = 1001 + 1 from rfl, irrGo_succ,
      if_pos (by rw [lt_abs]; norm_num : (1/5 : ℚ) < |(1749/5329 : ℚ)|),
      if_neg (by norm_num : ¬(1000 < 0 + 1)), hpp0, hd0,
      if_neg (by norm_num : ¬((55600/389017 : ℚ) = 0)),
      show ([1, -60/73, 800/5329] : List ℚ).sum = 1749/5329 from by norm_num,
      show (53/20 : ℚ) - 1749/5329 / (55600/389017) = 19663/55600 from by norm_num,
      show (1001 : ℕ) = 1000 + 1 from rfl, irrGo_succ,
      if_pos (by rw [lt_abs]; norm_num : (1/5 : ℚ) < |(1749/5329 : ℚ)|),
      if_neg (by norm_num : ¬(1000 < 1 + 1)), hpp1, hd1,
      if_neg (by norm_num : ¬((10476619040000/426328706216447 : ℚ) = 0)),
      show ([1, -166800/75263, 6182720000/5664519169] : List ℚ).sum
        = -706629231/5664519169 from by norm_num,
      show (19663/55600 : ℚ) - -706629231/5664519169 / (10476619040000/426328706216447)
        = 56888103441953/10476619040000 from by norm_num,
      show (1000 : ℕ) = 999 + 1 from rfl, irrGo_succ,
      if_neg (by rw [not_lt, abs_le]; norm_num :
        ¬((1/5 : ℚ) < |(-706629231/5664519169 : ℚ)|))]
  · have h : npvQ 1 [1, -3, 2] (56888103441953/10476619040000)
        = 2640261325552890431055334209/4538005835070543956410694209 := by
      simp [npvQ, ppv, PgivenF, List.enum, List.enumFrom]; norm_num
    rw [h, not_le, lt_abs]; norm_num

/-! ## Claim theorems: BCRatio rate resolution -/

/-- Counterexample to C4 as stated: a shared `rate` together with *only one*
per-stream rate does not succeed — the warning is emitted, but then line 372
re-tests the original `ben_rate`/`cost_rate` arguments and raises
`ValueError`. -/
theorem bc_shared_and_single_stream_rate_raises :
    bcInit (some (1/10)) (some (1/10)) none = .error true := by
  with_unfolding_all decide

/-- C4 (amended): a shared `rate` together with *both* per-stream rates (all
truthy) succeeds: the non-fatal warning is emitted and the shared rate
overrides both per-stream values; only a shared rate with exactly one
per-stream rate raises the `ValueError`. -/
theorem bc_shared_with_both_stream_rates_warns_and_overrides (r b c : ℚ)
    (hr : r ≠ 0) (hb : b ≠ 0) (hc : c ≠ 0) :
    bcInit (some r) (some b) (some c) = .ok (true, some r, some r) := by
  simp [bcInit, truthy, hr, hb, hc]

/-- Witness for C4 (amended) at `rate=0.1`, `ben_rate=0.1`, `cost_rate=0.15`. -/
theorem bc_shared_with_both_stream_rates_witness :
    ((1 : ℚ)/10 ≠ 0 ∧ (15 : ℚ)/100 ≠ 0) ∧
    bcInit (some (1/10)) (some (1/10)) (some (15/100)) = .ok (true, some (1/10), some (1/10)) :=
  ⟨by norm_num, bc_shared_with_both_stream_rates_warns_and_overrides (1/10) (1/10) (15/100)
    (by norm_num) (by norm_num) (by norm_num)⟩

/-! ## Claim theorems: cfCommon value level -/

/-- C8 (confirmed): for a dict of series each of length at least 2, `cfCommon`
keeps exactly the keys, and every output series has length
`LCM(horizons) + 1`, the horizons being the original lengths minus one. -/
theorem cfCommon_same_keys_lcm_lengths (cfs : List (String × List ℚ))
    (h : ∀ kv ∈ cfs, 2 ≤ kv.2.length) :
    (cfCommon cfs).map Prod.fst = cfs.map Prod.fst ∧
    ∀ kv ∈ cfCommon cfs, kv.2.length = lcmFold (horizons cfs) + 1 := by
  constructor
  · simp [cfCommon]
  · intro kv hkv
    simp only [cfCommon, List.mem_map] at hkv
    obtain ⟨⟨k, v⟩, hmem, rfl⟩ := hkv
    have hv : 2 ≤ v.length := h _ hmem
    have hmemh : v.length - 1 ∈ horizons cfs :=
      List.mem_map_of_mem (fun kv => kv.2.length - 1) hmem
    have hpos : ∀ x ∈ horizons cfs, 0 < x := by
      intro x hx
      simp only [horizons, List.mem_map] at hx
      obtain ⟨kv', hkv', rfl⟩ := hx
      have := h _ hkv'
      omega
    exact length_cfAdjust _ _ v hv rfl
      ((lcmFold_eq_foldl_lcm _) ▸ mem_dvd_foldl_lcm _ _ hmemh 1)
      ((lcmFold_eq_foldl_lcm _) ▸ foldl_lcm_pos _ hpos 1 Nat.one_pos)

/-- Exits of the `irr` loop with a numeric value happen only at the
`while` test: the result is the current rate when the test fails at entry,
and otherwise one Newton update past the rate whose present worth passed the
test (the body recomputes the present worth of the pre-update rate). -/
lemma irrGo_ok_cases (fract T : ℚ) (cf : List ℚ) (maxIter : ℕ) :
    ∀ (fuel : ℕ) (r npv : ℚ) (itr : ℕ) (rout : ℚ),
      irrGo fract T cf maxIter fuel r npv itr = .ok rout →
      (rout = r ∧ |npv| ≤ T) ∨
      ∃ rp, |npvQ fract cf rp| ≤ T ∧ rout = newtonStep fract cf rp := by
  intro fuel
  induction fuel with
  | zero => intro r npv itr rout h; exact absurd h (by simp [irrGo])
  | succ n ih =>
    intro r npv itr rout h
    rw [irrGo] at h
    split at h
    · split at h
      · exact absurd h (by simp)
      · split at h
        · exact absurd h (by simp)
        · rcases ih _ _ _ _ h with ⟨hout, hle⟩ | ⟨rp, hrp, hstep⟩
          · refine Or.inr ⟨r, ?_, ?_⟩
            · simpa [npvQ] using hle
            · rw [hout]; rfl
          · exact Or.inr ⟨rp, hrp, hstep⟩
    · rename_i hle
      cases h
      exact Or.inl ⟨rfl, not_lt.mp hle⟩

/-- C5 (amended): when `irr` returns a numeric rate `r`, the rate at which
the convergence test `abs(npv) <= threshold` actually passed is either `r`
itself (immediate exit, present worth already within threshold) or the rate
of which `r` is one further Newton update — the loop updates `r` after
computing the present worth it tests, so the *returned* rate's own present
worth is not in general within the threshold (see the counterexample). -/
theorem irr_ok_near_root_rate (cf : List ℚ) (guess : Option ℚ) (maxIter : ℕ)
    (T fract r : ℚ) (h : irr cf guess maxIter T fract = .ok r) :
    ∃ rp, |npvQ fract cf rp| ≤ T ∧ (r = rp ∨ r = newtonStep fract cf rp) := by
  unfold irr at h
  cases guess with
  | none =>
    by_cases hz : (cf.drop 1).sum = 0
    · rw [if_pos hz] at h
      exact absurd h (by simp)
    · rw [if_neg hz] at h
      rcases irrGo_ok_cases _ _ _ _ _ _ _ _ _ h with ⟨hout, hle⟩ | ⟨rp, hrp, hstep⟩
      · exact ⟨_, hle, Or.inl hout⟩
      · exact ⟨rp, hrp, Or.inr hstep⟩
  | some g =>
    rcases irrGo_ok_cases _ _ _ _ _ _ _ _ _ h with ⟨hout, hle⟩ | ⟨rp, hrp, hstep⟩
    · exact ⟨_, hle, Or.inl hout⟩
    · exact ⟨rp, hrp, Or.inr hstep⟩

/-- Witness for C5 (amended): `irr` on `[1, -3, 2]` with guess `3` converges
to the exact root `0`. -/
theorem irr_ok_near_root_rate_witness :
    irr [1, -3, 2] (some 3) 100 (1/100000) 1 = .ok 0 ∧
    ∃ rp, |npvQ 1 [1, -3, 2] rp| ≤ 1/100000 ∧
      ((0 : ℚ) = rp ∨ (0 : ℚ) = newtonStep 1 [1, -3, 2] rp) :=
  ⟨by with_unfolding_all decide,
   irr_ok_near_root_rate [1, -3, 2] (some 3) 100 (1/100000) 1 0
     (by with_unfolding_all decide)⟩

/-- Witness for C8 at the docstring example: the first output series (raw
length 4, horizon 3; LCM(3,4) = 12) has length 13. -/
theorem cfCommon_same_keys_lcm_lengths_witness :
    ("cf1", ([-1000, 300, 400, -500, 300, 400, -500, 300, 400, -500, 300, 400, 500] : List ℚ))
      ∈ cfCommon cfEx ∧
    ([-1000, 300, 400, -500, 300, 400, -500, 300, 400, -500, 300, 400, 500] : List ℚ).length = 13 := by
  have hcf : cfCommon cfEx =
      [("cf1", [-1000, 300, 400, -500, 300, 400, -500, 300, 400, -500, 300, 400, 500]),
       ("cf2", [-2000, 300, 400, 500, -1400, 300, 400, 500, -1400, 300, 400, 500, 600])] := by
    with_unfolding_all decide
  have hmem : ("cf1",
      ([-1000, 300, 400, -500, 300, 400, -500, 300, 400, -500, 300, 400, 500] : List ℚ))
      ∈ cfCommon cfEx := by
    rw [hcf]
    exact List.mem_cons_self _ _
  refine ⟨hmem, ?_⟩
  have h := (cfCommon_same_keys_lcm_lengths cfEx (by decide)).2
    ("cf1", [-1000, 300, 400, -500, 300, 400, -500, 300, 400, -500, 300, 400, 500]) hmem
  exact h.trans (by decide)

/-! ## Claim theorems: cfCommon heap behaviour -/

/-- Counterexample to C10 as stated: on the docstring example, the caller's
original list object at address 0 is *not* extended to the common horizon —
after the call it is `[-1000, 300, 400, -500]` of length 4, not 13 — and the
mapping no longer holds the original objects: both keys are rebound to
freshly allocated copies (addresses 2 and 3; the heap grew from 2 to 4
lists). -/
theorem cfCommon_copies_series_not_extending_originals :
    (cfCommonH 0 exStore).1 = 0 ∧
    readList (cfCommonH 0 exStore).2 0 = [-1000, 300, 400, -500] ∧
    (readList (cfCommonH 0 exStore).2 0).length = 4 ∧
    lcmFold (horizons cfEx) + 1 = 13 ∧ (4 : ℕ) ≠ 13 ∧
    (cfCommonH 0 exStore).2.dicts.getD 0 [] = [("cf1", 2), ("cf2", 3)] ∧
    (cfCommonH 0 exStore).2.lists.length = 4 ∧ exStore.lists.length = 2 := by
  refine ⟨rfl, by with_unfolding_all decide, by with_unfolding_all decide, by decide, by decide,
    by with_unfolding_all decide, by with_unfolding_all decide, by decide⟩

/-- C10 (amended): `cfCommon` returns the very same dict object it was
passed and mutates it at the mapping level.  Each original series list has
exactly its last element overwritten in place (its length is unchanged —
it is *not* extended), while the horizon extension allocates a *new* list —
a copy — that replaces the original in the mapping, and the final-element
adjustment applies to that new list, which holds the value-level
`cfAdjust` result. -/
theorem cfCommon_same_dict_overwrites_last_rebinds_fresh (d : ℕ) (s : Store)
    (hd : d < s.dicts.length)
    (haddr : ∀ kv ∈ s.dicts.getD d [], kv.2 < s.lists.length)
    (hdist : ((s.dicts.getD d []).map (fun kv => kv.2)).Pairwise (· ≠ ·))
    (hlen : ∀ kv ∈ s.dicts.getD d [], 2 ≤ (readList s kv.2).length) :
    (cfCommonH d s).1 = d ∧
    (∀ kv ∈ s.dicts.getD d [],
      readList (cfCommonH d s).2 kv.2 =
        setLast (readList s kv.2)
          ((readList s kv.2).headD 0 + (readList s kv.2).getLastD 0) ∧
      (readList (cfCommonH d s).2 kv.2).length = (readList s kv.2).length) ∧
    List.Forall₂ (fun (kv e : String × ℕ) =>
        e.1 = kv.1 ∧ s.lists.length ≤ e.2 ∧
        readList (cfCommonH d s).2 e.2 =
          cfAdjust
            (lcmFold ((s.dicts.getD d []).map (fun kv' => (readList s kv'.2).length - 1)))
            ((readList s kv.2).length - 1) (readList s kv.2))
      (s.dicts.getD d []) ((cfCommonH d s).2.dicts.getD d []) := by
  have hin : ∀ t ∈ (s.dicts.getD d []).map
      (fun kv => (kv, (readList s kv.2).length - 1)), t.1.2 < s.lists.length := by
    intro t ht
    obtain ⟨kv, hkv, rfl⟩ := List.mem_map.mp ht
    exact haddr kv hkv
  have hdist' : (((s.dicts.getD d []).map
      (fun kv => (kv, (readList s kv.2).length - 1))).map
        (fun t => t.1.2)).Pairwise (· ≠ ·) := by
    rw [List.map_map]
    exact hdist
  obtain ⟨hd1, _hd2, _hframe, horig, hf2⟩ :=
    cfLoop_spec (lcmFold ((s.dicts.getD d []).map (fun kv => (readList s kv.2).length - 1)))
      ((s.dicts.getD d []).map (fun kv => (kv, (readList s kv.2).length - 1))) s hin hdist'
  have hts : (s.dicts.getD d []).zip
      ((s.dicts.getD d []).map (fun kv => (readList s kv.2).length - 1)) =
      (s.dicts.getD d []).map (fun kv => (kv, (readList s kv.2).length - 1)) :=
    zip_map_self _ _
  simp only [cfCommonH, hts]
  refine ⟨by trivial, ?_, ?_⟩
  · intro kv hkv
    have h1 := horig _ (List.mem_map_of_mem (fun kv => (kv, (readList s kv.2).length - 1)) hkv)
    have h2 := hlen kv hkv
    refine ⟨h1, ?_⟩
    have h3 := congrArg List.length h1
    rw [length_setLast] at h3
    have h4 : (readList s kv.2).length - 1 + 1 = (readList s kv.2).length := by omega
    exact h3.trans h4
  · have hdlen : d < ((cfLoop
        (lcmFold ((s.dicts.getD d []).map (fun kv => (readList s kv.2).length - 1)))
        ((s.dicts.getD d []).map (fun kv => (kv, (readList s kv.2).length - 1)))
        s).2.dicts).length := by
      rw [hd1]
      exact hd
    rw [getD_set_self _ _ _ _ hdlen]
    exact List.forall₂_map_left_iff.mp hf2

/-- Witness for C10 (amended) at the docstring example heap. -/
theorem cfCommon_same_dict_overwrites_last_rebinds_fresh_witness :
    (0 < exStore.dicts.length) ∧
    ((∀ kv ∈ exStore.dicts.getD 0 [],
      readList (cfCommonH 0 exStore).2 kv.2 =
        setLast (readList exStore kv.2)
          ((readList exStore kv.2).headD 0 + (readList exStore kv.2).getLastD 0) ∧
      (readList (cfCommonH 0 exStore).2 kv.2).length = (readList exStore kv.2).length) ∧
    List.Forall₂ (fun (kv e : String × ℕ) =>
        e.1 = kv.1 ∧ exStore.lists.length ≤ e.2 ∧
        readList (cfCommonH 0 exStore).2 e.2 =
          cfAdjust
            (lcmFold ((exStore.dicts.getD 0 []).map
              (fun kv' => (readList exStore kv'.2).length - 1)))
            ((readList exStore kv.2).length - 1) (readList exStore kv.2))
      (exStore.dicts.getD 0 []) ((cfCommonH 0 exStore).2.dicts.getD 0 [])) :=
  ⟨by decide,
   (cfCommon_same_dict_overwrites_last_rebinds_fresh 0 exStore (by decide)
     (by with_unfolding_all decide) (by decide) (by with_unfolding_all decide)).2⟩

end IETools
